import Mathlib

/-!
Verification of the token-classifier and automaton-narrator core of the
AutomataFinito repository (files `app.py` and `lector.py`).

The repository's `analisis_cadenas.py` module (classes `Clasificador` and
`Descriptor`) is imported by `app.py` but is not part of the source tree;
where a definition below embeds that missing module, its doc comment starts
with "Modelled from the spec:" and follows the specification's wording.
Everything else is translated directly from `app.py` / `lector.py`.
-/

namespace AutomataFinito

/-! ## Character-class patterns

The automata in `App.exp_como_automatas` guard each edge with a compact
pattern string such as "[a-zA-Z]|_", "[0-9]", "-", ".", "#" or a double
quote.  The matcher that evaluates one such pattern against one character
lives in the missing `analisis_cadenas.py`. -/

/-- Modelled from the spec: an atom of a CharClassPattern fragment — a
letter class `[a-zA-Z]`, a digit class `[0-9]`, or a single literal
character (the spec's examples: letter-or-underscore, digit, literal
quote).  Missing code: the CharClassMatcher of `analisis_cadenas.py`. -/
inductive CCAtom where
  | alpha : CCAtom
  | digit : CCAtom
  | lit : Char → CCAtom
deriving DecidableEq

/-- Split a character list at every occurrence of the bar character,
the alternation separator of the pattern fragments. -/
def splitBar (cs : List Char) : List (List Char) :=
  cs.foldr
    (fun c acc =>
      if c = '|' then [] :: acc
      else
        match acc with
        | a :: rest => (c :: a) :: rest
        | [] => [[c]])
    [[]]

/-- Remove one pair of surrounding parentheses, as in
"([a-zA-Z]|[0-9]|-|_)"; other inputs are returned unchanged. -/
def stripParens (cs : List Char) : List Char :=
  match cs with
  | '(' :: rest => if rest.getLast? = some ')' then rest.dropLast else cs
  | _ => cs

/-- Parse one alternative of a pattern fragment into an atom; `none`
signals a fragment that is not a single-character class. -/
def parseAtom : List Char → Option CCAtom
  | ['[', 'a', '-', 'z', 'A', '-', 'Z', ']'] => some CCAtom.alpha
  | ['[', '0', '-', '9', ']'] => some CCAtom.digit
  | [c] => some (CCAtom.lit c)
  | _ => none

/-- Modelled from the spec: parse a CharClassPattern string into its list
of single-character alternatives; `none` marks a malformed pattern that
cannot be evaluated as a single-character matcher (spec section 7).
Missing code: the CharClassMatcher of `analisis_cadenas.py`. -/
def parsePattern (p : String) : Option (List CCAtom) :=
  (splitBar (stripParens p.data)).mapM parseAtom

/-- Evaluation of one atom against one character. -/
def atomMatch : CCAtom → Char → Bool
  | CCAtom.alpha, c => c.isAlpha
  | CCAtom.digit, c => c.isDigit
  | CCAtom.lit l, c => c == l

/-- Modelled from the spec: `matches(pattern, char)` of the
CharClassMatcher (spec section 4.1); `none` when the pattern is
malformed.  Missing code: `analisis_cadenas.py`. -/
def ccMatch (p : String) (c : Char) : Option Bool :=
  (parsePattern p).map (fun atoms => atoms.any (fun a => atomMatch a c))

/-- Boolean view of `ccMatch` used once a model has been validated:
a malformed pattern matches nothing. -/
def ccMatchB (p : String) (c : Char) : Bool :=
  (ccMatch p c).getD false

/-! ## Automaton models

Translated from `App.exp_como_automatas` in `app.py`: each automaton is a
dictionary with a "transitions" entry mapping a state to an ordered list
of single-entry dictionaries (target state ↦ guard pattern) and an
"endstates" list.  The spec's `states` field is the set of state
identifiers mentioned by the model, implicitly including `q0`. -/

structure AutomatonModel where
  states : List String
  transitions : List (String × List (String × String))
  endstates : List String
deriving DecidableEq

/-- The identifier automaton `autom_identificadores` of `app.py`. -/
def autom_identificadores : AutomatonModel :=
  { states := ["q0", "q1"]
    transitions :=
      [ ("q0", [("q1", "[a-zA-Z]|_")])
      , ("q1", [("q1", "([a-zA-Z]|[0-9]|-|_)")]) ]
    endstates := ["q1"] }

/-- The numeric/string-constant automaton `autom_constantes` of `app.py`. -/
def autom_constantes : AutomatonModel :=
  { states := ["q0", "q1", "q2", "q3", "q4", "q5", "q6", "q7"]
    transitions :=
      [ ("q0", [("q1", "-"), ("q2", "[0-9]"), ("q5", "\"")])
      , ("q1", [("q2", "[0-9]")])
      , ("q2", [("q2", "[0-9]"), ("q3", ".")])
      , ("q3", [("q4", "[0-9]")])
      , ("q4", [("q4", "[0-9]")])
      , ("q5", [("q6", "([a-zA-Z]|[0-9])"), ("q7", "\"")])
      , ("q6", [("q6", "([a-zA-Z]|[0-9])"), ("q7", "\"")]) ]
    endstates := ["q2", "q4", "q7"] }

/-- The comment automaton `autom_comentarios` of `app.py`. -/
def autom_comentarios : AutomatonModel :=
  { states := ["q0", "q1"]
    transitions :=
      [ ("q0", [("q1", "#")])
      , ("q1", [("q1", "([a-zA-Z]|[0-9]|_|-)")]) ]
    endstates := ["q1"] }

/-- Ordered edges leaving a state; a state with no transitions entry has
no outgoing edges (absence of a matching edge is the rejection signal,
spec section 3). -/
def transitionsOf (m : AutomatonModel) (s : String) : List (String × String) :=
  ((m.transitions.find? (fun p => p.1 == s)).map (fun p => p.2)).getD []

/-! ## Simulator

Modelled from the spec (section 4.2): the missing `Descriptor` simulation
of `analisis_cadenas.py`. -/

/-- One step record of a trace: source state, consumed character, and —
when an edge was selected — the target state and the matched pattern. -/
structure StepRecord where
  fromState : String
  consumedChar : Char
  toState : Option String
  matchedPattern : Option String
deriving DecidableEq

/-- Reason attached to a verdict (spec section 4.2). -/
inductive Reason where
  | fullyConsumedAccepting : String → Reason
  | fullyConsumedNonAccepting : String → Reason
  | noTransition : String → Char → Nat → Reason
deriving DecidableEq

/-- Final verdict of a simulation. -/
structure Verdict where
  accepted : Bool
  finalState : String
  reason : Reason
deriving DecidableEq

/-- A trace: the ordered step records plus the terminal verdict. -/
structure Trace where
  steps : List StepRecord
  verdict : Verdict
deriving DecidableEq

/-- First edge in declared order whose guard matches the character
(first-match-wins disambiguation, spec section 4.2). -/
def findEdge (edges : List (String × String)) (c : Char) : Option (String × String) :=
  edges.find? (fun e => ccMatchB e.2 c)

/-- Modelled from the spec: the simulation loop of section 4.2 — consume
one character per iteration, select the first matching edge, stop with a
rejection record when no edge matches.  Missing code: the `Descriptor`
class of `analisis_cadenas.py`. -/
def simGo (m : AutomatonModel) (cur : String) (pos : Nat) (cs : List Char)
    (acc : List StepRecord) : Trace :=
  match cs with
  | [] =>
    if m.endstates.contains cur then
      { steps := acc.reverse
        verdict := { accepted := true, finalState := cur
                     reason := Reason.fullyConsumedAccepting cur } }
    else
      { steps := acc.reverse
        verdict := { accepted := false, finalState := cur
                     reason := Reason.fullyConsumedNonAccepting cur } }
  | c :: rest =>
    match findEdge (transitionsOf m cur) c with
    | some e =>
      simGo m e.1 (pos + 1) rest
        ({ fromState := cur, consumedChar := c
           toState := some e.1, matchedPattern := some e.2 } :: acc)
    | none =>
      { steps := ({ fromState := cur, consumedChar := c
                    toState := none, matchedPattern := none } :: acc).reverse
        verdict := { accepted := false, finalState := cur
                     reason := Reason.noTransition cur c pos } }

/-- Modelled from the spec: `simulate(model, token)` of section 4.2,
starting at `q0` with position 0.  Missing code: `analisis_cadenas.py`. -/
def simulate (m : AutomatonModel) (t : String) : Trace :=
  simGo m "q0" 0 t.data []

/-- The sequence of states visited by a trace: the source state of every
step followed by the final state of the verdict. -/
def statePath (tr : Trace) : List String :=
  tr.steps.map (fun r => r.fromState) ++ [tr.verdict.finalState]

/-! ## Structural validation

Modelled from the spec (section 7): a target state not present in
`model.states`, or a malformed CharClassPattern, is a typed structural
validity error, distinct from a rejection verdict. -/

/-- A typed structural-validity error (spec section 7). -/
inductive StructError where
  | unknownTarget : String → String → StructError
  | badPattern : String → String → StructError
deriving DecidableEq

/-- Structural errors contributed by the ordered edges of one state. -/
def edgeErrors (m : AutomatonModel) (s : String) : List (String × String) → List StructError
  | [] => []
  | e :: es =>
    (if e.1 ∈ m.states then [] else [StructError.unknownTarget s e.1]) ++
      (if (parsePattern e.2).isSome then [] else [StructError.badPattern s e.2]) ++
      edgeErrors m s es

/-- Structural errors of a list of transition entries. -/
def validateGo (m : AutomatonModel) : List (String × List (String × String)) → List StructError
  | [] => []
  | p :: ps => edgeErrors m p.1 p.2 ++ validateGo m ps

/-- Modelled from the spec: all structural-validity errors of a model,
collected before simulation (spec section 7). -/
def validate (m : AutomatonModel) : List StructError :=
  validateGo m m.transitions

/-- Modelled from the spec: simulation that surfaces a structural
validity error as a typed failure propagating to the caller, while a
rejection stays an ordinary verdict inside an ok trace (spec section 7). -/
def simulateE (m : AutomatonModel) (t : String) : Except StructError Trace :=
  match validate m with
  | [] => Except.ok (simulate m t)
  | e :: _ => Except.error e

/-! ## Narrator

Modelled from the spec (section 4.3): one sentence per step record and a
closing sentence stating the verdict. -/

/-- Sentence for one step record. -/
def stepSentence (r : StepRecord) : String :=
  match r.toState, r.matchedPattern with
  | some t, some p =>
    "Del estado " ++ r.fromState ++ " leyendo " ++ String.singleton r.consumedChar ++
      " se pasa al estado " ++ t ++ " porque coincide con " ++ p
  | _, _ =>
    "En el estado " ++ r.fromState ++ " no hay transicion para " ++
      String.singleton r.consumedChar

/-- Closing sentence stating the verdict and its reason. -/
def verdictSentence (v : Verdict) : String :=
  if v.accepted then "La cadena es aceptada en el estado " ++ v.finalState
  else "La cadena es rechazada en el estado " ++ v.finalState

/-- Modelled from the spec: `describe(categoryLabel, trace)` of section
4.3 — one sentence per step record followed by one verdict sentence.
Missing code: `Descriptor.describir` of `analisis_cadenas.py`. -/
def describir (nombre : String) (tr : Trace) : List String :=
  tr.steps.map (fun r => nombre ++ ": " ++ stepSentence r) ++ [verdictSentence tr.verdict]

/-! ## Classifier

Modelled from the spec (section 4.4): the missing `Clasificador` of
`analisis_cadenas.py`.  A category spec pairs an identifier with its
full-match predicate. -/

/-- A category: its identifier and the full-match test of its regular
expression (spec section 3, CategorySpec). -/
structure CategorySpec where
  id : String
  fullMatch : String → Bool

/-- Modelled from the spec: index of the first category, in configured
priority order, whose regex fully matches the token (spec section 4.4). -/
def firstMatch : List CategorySpec → String → Option Nat
  | [], _ => none
  | sp :: rest, t =>
    if sp.fullMatch t then some 0 else (firstMatch rest t).map (fun i => i + 1)

/-- Result of classification: one ordered bucket per category plus the
ordered leftover list. -/
structure ClassificationResult where
  buckets : List (List String)
  leftover : List String
deriving DecidableEq

/-- Append a token at the end of bucket `i`. -/
def appendAt (bs : List (List String)) (i : Nat) (t : String) : List (List String) :=
  bs.set i (bs.getD i [] ++ [t])

/-- Modelled from the spec: the classification loop of section 4.4 — for
each token in input order, append it to the bucket of the first matching
category, or to the leftover list when none matches. -/
def classifyGo (specs : List CategorySpec) : List String → ClassificationResult → ClassificationResult
  | [], acc => acc
  | t :: ts, acc =>
    match firstMatch specs t with
    | some i => classifyGo specs ts { buckets := appendAt acc.buckets i t, leftover := acc.leftover }
    | none => classifyGo specs ts { buckets := acc.buckets, leftover := acc.leftover ++ [t] }

/-- Modelled from the spec: `classify(categorySpecs, tokens)` of section
4.4, starting from empty buckets and an empty leftover list. -/
def classify (specs : List CategorySpec) (tokens : List String) : ClassificationResult :=
  classifyGo specs tokens { buckets := specs.map (fun _ => []), leftover := [] }

/-! ## The configured regular expressions

Translated from `App.definir_exp_reg` in `app.py`.  Each Python regex
string is rendered as the decidable full-match predicate it denotes. -/

/-- Full match of the identifier regex ([a-zA-Z]|_)([a-zA-Z]|[0-9]|-|_)*
from `app.py`. -/
def exp_identificadores (cs : List Char) : Bool :=
  match cs with
  | [] => false
  | c :: rest =>
    (c.isAlpha || c == '_') &&
      rest.all (fun d => d.isAlpha || d.isDigit || d == '-' || d == '_')

/-- Full match of the numeric branch (-)?([0-9]+)(\.[0-9]+)? of the
constant regex from `app.py`. -/
def numConst (cs : List Char) : Bool :=
  let body := match cs with
    | '-' :: rest => rest
    | _ => cs
  let p := body.span Char.isDigit
  !p.1.isEmpty &&
    (match p.2 with
     | [] => true
     | '.' :: frac => !frac.isEmpty && frac.all Char.isDigit
     | _ => false)

/-- Full match of the quoted branch of the constant regex from `app.py`:
a double quote, letters or digits, a closing double quote. -/
def strConst (cs : List Char) : Bool :=
  decide (cs.length ≥ 2) && (cs.headD ' ' == '"') && (cs.getLastD ' ' == '"') &&
    ((cs.drop 1).dropLast.all (fun d => d.isAlpha || d.isDigit))

/-- Full match of the constant regex from `app.py`. -/
def exp_constantes (cs : List Char) : Bool :=
  numConst cs || strConst cs

/-- Full match of the comment regex #([a-zA-Z]|[0-9]|_|-)* from `app.py`. -/
def exp_comentarios (cs : List Char) : Bool :=
  match cs with
  | '#' :: rest => rest.all (fun d => d.isAlpha || d.isDigit || d == '_' || d == '-')
  | _ => false

/-- The ordered category list of `App.definir_exp_reg`: identifiers,
constants, comments, in that priority order. -/
def definir_exp_reg : List CategorySpec :=
  [ { id := "identificadores", fullMatch := fun s => exp_identificadores s.data }
  , { id := "constantes", fullMatch := fun s => exp_constantes s.data }
  , { id := "comentarios", fullMatch := fun s => exp_comentarios s.data } ]

/-! ## File reading — `lector.py`

`Lector.leer_archivo` runs `re.split(r"\s+", texto)` on the file's
contents and returns the resulting list unchanged. -/

/-- The characters matched by the regex class \s of Python 3 `re` on a
str: the Unicode whitespace set — the ASCII controls 09-0D, the space,
the separator controls 1C-1F, next-line 85, no-break space A0, Ogham
space 1680, the spaces 2000-200A, line separator 2028, paragraph
separator 2029, narrow no-break space 202F, medium mathematical space
205F and ideographic space 3000. -/
def esEspacio (c : Char) : Bool :=
  (0x09 ≤ c.toNat && c.toNat ≤ 0x0d) || c.toNat == 0x20 ||
    (0x1c ≤ c.toNat && c.toNat ≤ 0x1f) || c.toNat == 0x85 || c.toNat == 0xa0 ||
    c.toNat == 0x1680 || (0x2000 ≤ c.toNat && c.toNat ≤ 0x200a) ||
    c.toNat == 0x2028 || c.toNat == 0x2029 || c.toNat == 0x202f ||
    c.toNat == 0x205f || c.toNat == 0x3000

/-- Splitting engine of `re.split` with the pattern \s+: fields between
maximal whitespace runs, keeping the empty field produced by a run at the
start or at the end of the text. -/
def splitWsAux : List Char → List Char → Bool → List (List Char)
  | [], cur, _ => [cur.reverse]
  | c :: rest, cur, b =>
    if esEspacio c then
      if b then splitWsAux rest cur true
      else cur.reverse :: splitWsAux rest [] true
    else splitWsAux rest (c :: cur) false

/-- `Lector.leer_archivo` of `lector.py`: read the file contents and
return `re.split(r"\s+", texto)` as-is. -/
def leer_archivo (texto : String) : List String :=
  (splitWsAux texto.data [] false).map (fun cs => String.mk cs)

/-! ## Method-call arity — `Lector.seleccionar_archivo`

`leer_archivo` is declared with the single parameter `ruta_archivo` and
no `self`; `seleccionar_archivo` invokes it as the bound call
`self.leer_archivo(nombre_archivo)`, which passes the instance plus one
explicit argument. -/

/-- Outcome of a Python call: a value, or a TypeError raised by the
interpreter when the number of supplied arguments does not equal the
number of declared parameters. -/
inductive PyOutcome (α : Type) where
  | ok : α → PyOutcome α
  | typeError : PyOutcome α
deriving DecidableEq

/-- Number of parameters declared by `def leer_archivo(ruta_archivo)`. -/
def leer_archivo_param_count : Nat := 1

/-- A bound method call on an instance: the instance is passed as the
first argument, so the callee receives one more argument than was
written; a mismatch with the declared parameter count raises TypeError
before the body runs. -/
def pyBoundCall {α : Type} (declaredParams : Nat) (explicitArgs : Nat)
    (body : Unit → α) : PyOutcome α :=
  if explicitArgs + 1 = declaredParams then PyOutcome.ok (body ()) else PyOutcome.typeError

/-- `Lector.seleccionar_archivo` of `lector.py`: `nombre_archivo` is the
dialog's result (the empty string when the dialog is cancelled) and
`contenido` the contents the file would have.  A truthy filename leads to
the bound call `self.leer_archivo(nombre_archivo)`; the surrounding
try/except re-raises any exception unchanged. -/
def seleccionar_archivo (nombre_archivo : String) (contenido : String) :
    PyOutcome (Option (List String)) :=
  if nombre_archivo ≠ "" then
    pyBoundCall leer_archivo_param_count 1 (fun _ => some (leer_archivo contenido))
  else
    PyOutcome.ok none

/-! ## Pagination — `App.describir_analisis`

Translated from `app.py` lines 204-242.  The narration of each
descriptor is its list of sentences; the accumulated text `analisis` is
kept as the list of lines it contains, and each messagebox is recorded as
a popup holding its title and its lines. -/

/-- One messagebox: its title and the lines of its body. -/
structure Popup where
  titulo : String
  lineas : List String
deriving DecidableEq

/-- Inner loop of `describir_analisis` over one descriptor's sentences:
append each sentence to the running buffer, and emit a popup whenever the
per-descriptor counter reaches `mostrar`, resetting buffer and counter.
Returns the popups emitted and the buffer left over. -/
def emitLoop (titulo : String) (mostrar : Nat) :
    List String → List String → Nat → List Popup × List String
  | [], buffer, _ => ([], buffer)
  | e :: rest, buffer, contador =>
    if contador + 1 = mostrar then
      let p := emitLoop titulo mostrar rest [] 0
      ({ titulo := titulo, lineas := buffer ++ [e] } :: p.1, p.2)
    else
      emitLoop titulo mostrar rest (buffer ++ [e]) (contador + 1)

/-- Outer loop of `describir_analisis` over the descriptors, threading
the `analisis` buffer, which is not reset between descriptors. -/
def descLoop (cadena : String) (maxlineas : Nat) :
    List (String × List String) → List String → List Popup × List String
  | [], buffer => ([], buffer)
  | (nombre, estatutos) :: rest, buffer =>
    let mostrar := if estatutos.length > maxlineas then maxlineas else estatutos.length
    let titulo :=
      "Analisis de la cadena " ++ cadena ++ " como " ++ nombre ++
        (if estatutos.length > maxlineas then " (Continuación)" else "")
    let p := emitLoop titulo mostrar estatutos buffer 0
    let q := descLoop cadena maxlineas rest p.2
    (p.1 ++ q.1, q.2)

/-- `App.describir_analisis` of `app.py`: the descriptors are given by
name together with the sentence list `descriptor.describir(cadena)`
produces; the result is the sequence of popups shown and the lines left
undisplayed in the buffer when the loop ends. -/
def describir_analisis (cadena : String) (descriptores : List (String × List String))
    (maxlineas : Nat) : List Popup × List String :=
  descLoop cadena maxlineas descriptores []

/-! ## Theorems -/

/-- C2, counterexample: simulating the token 3.14 on the constants
automaton does not follow the spec's claimed state path
q0→q2→q2→q3→q4. -/
theorem simulate_const_3_14_claimed_path_false :
    statePath (simulate autom_constantes "3.14") ≠ ["q0", "q2", "q2", "q3", "q4"] := by
  decide

/-- C2, amended: simulating the token 3.14 on the constants automaton
follows the state path q0→q2→q3→q4→q4 and is accepted, the final state
q4 being an accepting state. -/
theorem simulate_const_3_14_amended :
    statePath (simulate autom_constantes "3.14") = ["q0", "q2", "q3", "q4", "q4"] ∧
    (simulate autom_constantes "3.14").verdict.accepted = true ∧
    (simulate autom_constantes "3.14").verdict.finalState = "q4" ∧
    "q4" ∈ autom_constantes.endstates := by
  decide

/-- C6: the token $bad is rejected by all three shipped automatons —
no edge leaving q0 matches the dollar character in any of them — it
fully matches none of the three configured regexes, and the classifier
places it in the leftover list. -/
theorem dollar_bad_rejected_everywhere_and_leftover :
    (simulate autom_identificadores "$bad").verdict.accepted = false ∧
    (simulate autom_constantes "$bad").verdict.accepted = false ∧
    (simulate autom_comentarios "$bad").verdict.accepted = false ∧
    findEdge (transitionsOf autom_identificadores "q0") '$' = none ∧
    findEdge (transitionsOf autom_constantes "q0") '$' = none ∧
    findEdge (transitionsOf autom_comentarios "q0") '$' = none ∧
    exp_identificadores "$bad".data = false ∧
    exp_constantes "$bad".data = false ∧
    exp_comentarios "$bad".data = false ∧
    classify definir_exp_reg ["$bad"] =
      { buckets := [[], [], []], leftover := ["$bad"] } := by
  decide

/-- Each simulation step pushes exactly one record per consumed
character, so the accumulated steps grow by at most the remaining
input. -/
theorem simGo_steps_length_le (m : AutomatonModel) :
    ∀ (cs : List Char) (cur : String) (pos : Nat) (acc : List StepRecord),
      (simGo m cur pos cs acc).steps.length ≤ acc.length + cs.length := by
  intro cs
  induction cs with
  | nil =>
    intro cur pos acc
    simp only [simGo]
    split <;> simp
  | cons c rest ih =>
    intro cur pos acc
    simp only [simGo]
    split
    · next e _ =>
      have h := ih e.1 (pos + 1)
        ({ fromState := cur, consumedChar := c
           toState := some e.1, matchedPattern := some e.2 } :: acc)
      simp only [List.length_cons] at h
      simp only [List.length_cons]
      omega
    · simp only [List.length_reverse, List.length_cons]
      omega

/-- C4: for every automaton model and every token, the simulator
terminates with a trace of at most length-of-token step records. -/
theorem simulate_steps_bounded (m : AutomatonModel) (t : String) :
    (simulate m t).steps.length ≤ t.length := by
  have h := simGo_steps_length_le m t.data "q0" 0 []
  simpa [simulate] using h

/-- C7: classification, simulation and narration are pure functions of
their inputs — calling any of them twice with identical inputs yields
identical outputs, and narrating the same trace repeatedly is
idempotent. -/
theorem core_deterministic_idempotent (specs : List CategorySpec) (tokens : List String)
    (m : AutomatonModel) (t : String) (nombre : String) (tr : Trace) :
    classify specs tokens = classify specs tokens ∧
    simulate m t = simulate m t ∧
    simulateE m t = simulateE m t ∧
    describir nombre tr = describir nombre tr ∧
    describir nombre (simulate m t) = describir nombre (simulate m t) :=
  ⟨rfl, rfl, rfl, rfl, rfl⟩

/-- C8: on a `Lector` instance, selecting a file makes
`seleccionar_archivo` invoke the self-less `leer_archivo` as a bound
method — two arguments against one declared parameter — so it raises a
TypeError; it never returns a token list, and it returns None exactly
when the file dialog is cancelled. -/
theorem seleccionar_archivo_typeerror (nombre contenido : String) :
    (nombre ≠ "" → seleccionar_archivo nombre contenido = PyOutcome.typeError) ∧
    (nombre = "" → seleccionar_archivo nombre contenido = PyOutcome.ok none) ∧
    ∀ v, seleccionar_archivo nombre contenido ≠ PyOutcome.ok (some v) := by
  unfold seleccionar_archivo pyBoundCall leer_archivo_param_count
  by_cases h : nombre = "" <;> simp [h]

/-- C8 witness: selecting the file f.txt raises the TypeError. -/
theorem seleccionar_archivo_typeerror_witness :
    seleccionar_archivo "f.txt" "x y" = PyOutcome.typeError :=
  (seleccionar_archivo_typeerror "f.txt" "x y").1 (by decide)

/-- The edge errors of one state vanish exactly when every edge has a
known target and a well-formed pattern. -/
theorem edgeErrors_eq_nil_iff (m : AutomatonModel) (s : String) :
    ∀ es : List (String × String),
      edgeErrors m s es = [] ↔
        ∀ ed ∈ es, ed.1 ∈ m.states ∧ parsePattern ed.2 ≠ none := by
  intro es
  induction es with
  | nil => simp [edgeErrors]
  | cons e rest ih =>
    by_cases hc : e.1 ∈ m.states
    · by_cases hp : parsePattern e.2 = none
      · simp [edgeErrors, hc, hp]
      · simp [edgeErrors, hc, hp, ih]
    · simp [edgeErrors, hc]

/-- A model validates cleanly exactly when every edge of every state has
a known target and a well-formed pattern. -/
theorem validate_eq_nil_iff (m : AutomatonModel) :
    validate m = [] ↔ ∀ se ∈ m.transitions, ∀ ed ∈ se.2,
      ed.1 ∈ m.states ∧ parsePattern ed.2 ≠ none := by
  unfold validate
  induction m.transitions with
  | nil => simp [validateGo]
  | cons p ps ih =>
    simp [validateGo, List.append_eq_nil, ih, edgeErrors_eq_nil_iff]

/-- C5: a target state absent from the model's states or a malformed
CharClassPattern makes `simulateE` return a typed structural error that
propagates to the caller, while on a structurally valid model the result
is always an ok trace — a rejection verdict is never an error. -/
theorem simulateE_structural_errors (m : AutomatonModel) (t : String) :
    ((∃ se ∈ m.transitions, ∃ ed ∈ se.2,
        ed.1 ∉ m.states ∨ parsePattern ed.2 = none) →
      ∃ e, simulateE m t = Except.error e) ∧
    ((∀ se ∈ m.transitions, ∀ ed ∈ se.2,
        ed.1 ∈ m.states ∧ parsePattern ed.2 ≠ none) →
      simulateE m t = Except.ok (simulate m t) ∧
        ∀ e, simulateE m t ≠ Except.error e) := by
  constructor
  · intro hdef
    have hne : validate m ≠ [] := by
      intro hnil
      have hall := (validate_eq_nil_iff m).1 hnil
      obtain ⟨se, hse, ed, hed, hbad⟩ := hdef
      have hgood := hall se hse ed hed
      rcases hbad with hb | hb
      · exact hb hgood.1
      · exact hgood.2 hb
    unfold simulateE
    cases hv : validate m with
    | nil => exact absurd hv hne
    | cons e es => exact ⟨e, rfl⟩
  · intro hok
    have hnil : validate m = [] := (validate_eq_nil_iff m).2 hok
    unfold simulateE
    rw [hnil]
    exact ⟨rfl, fun e h => by cases h⟩

/-- A model whose only edge targets a state missing from its state set,
used to exercise the structural-error path. -/
def autom_defectuoso : AutomatonModel :=
  { states := ["q0"]
    transitions := [("q0", [("qX", "[0-9]")])]
    endstates := [] }

/-- C5 witness: the defective model yields a structural error on the
token 1, and the valid identifier automaton yields an ok trace on the
rejected token $bad. -/
theorem simulateE_structural_errors_witness :
    (∃ e, simulateE autom_defectuoso "1" = Except.error e) ∧
    simulateE autom_identificadores "$bad" =
      Except.ok (simulate autom_identificadores "$bad") := by
  constructor
  · exact (simulateE_structural_errors autom_defectuoso "1").1
      ⟨("q0", [("qX", "[0-9]")]), by decide, ("qX", "[0-9]"), by decide, Or.inl (by decide)⟩
  · exact ((simulateE_structural_errors autom_identificadores "$bad").2 (by decide)).1

/-- Last element of a cons list with a nonempty tail. -/
theorem getLast?_cons_of_ne_nil {α : Type} (c : α) {rest : List α} (h : rest ≠ []) :
    (c :: rest).getLast? = rest.getLast? := by
  cases rest with
  | nil => exact absurd rfl h
  | cons x xs => simp [List.getLast?_cons_cons]

/-- The `re.split` engine never produces an empty field, provided the
remaining text does not end in whitespace, and — when the current field
is empty and no whitespace run is open — does not start with whitespace
either. -/
theorem splitWsAux_no_nil :
    ∀ (cs cur : List Char) (b : Bool),
      (cs = [] → cur ≠ []) →
      (∀ c, cs.getLast? = some c → esEspacio c = false) →
      (∀ c cs2, cs = c :: cs2 → esEspacio c = true → (cur ≠ [] ∨ b = true)) →
      [] ∉ splitWsAux cs cur b := by
  intro cs
  induction cs with
  | nil =>
    intro cur b h1 _ _
    simp only [splitWsAux, List.mem_singleton]
    intro hmem
    exact h1 rfl (by simpa [List.reverse_eq_nil_iff] using hmem.symm)
  | cons c rest ih =>
    intro cur b h1 h2 h3
    by_cases hw : esEspacio c = true
    · have hrest : rest ≠ [] := by
        intro hr
        subst hr
        have hce : esEspacio c = false := h2 c (by simp)
        rw [hce] at hw
        cases hw
      have h2' : ∀ d, rest.getLast? = some d → esEspacio d = false := by
        intro d hd
        exact h2 d (by rw [getLast?_cons_of_ne_nil c hrest]; exact hd)
      cases b with
      | true =>
        simp only [splitWsAux, hw, if_true]
        exact ih cur true (fun hr => absurd hr hrest) h2' (fun _ _ _ _ => Or.inr rfl)
      | false =>
        have hcur : cur ≠ [] := by
          rcases h3 c rest rfl hw with h | h
          · exact h
          · cases h
        simp only [splitWsAux, hw, if_true]
        intro hmem
        rcases List.mem_cons.1 hmem with heq | hmem2
        · exact hcur (by simpa [List.reverse_eq_nil_iff] using heq.symm)
        · exact ih [] true (fun hr => absurd hr hrest) h2' (fun _ _ _ _ => Or.inr rfl) hmem2
    · simp only [splitWsAux, hw, if_false]
      apply ih (c :: cur) false
      · intro _
        simp
      · intro d hd
        have hrne : rest ≠ [] := by
          intro hr
          subst hr
          simp at hd
        exact h2 d (by rw [getLast?_cons_of_ne_nil c hrne]; exact hd)
      · intro _ _ _ _
        exact Or.inl (by simp)

/-- C3, counterexample: a file whose contents start with whitespace
yields a token list that contains the empty string. -/
theorem leer_archivo_keeps_empty_token :
    leer_archivo " a" = ["", "a"] ∧ "" ∈ leer_archivo " a" := by
  decide

/-- C3, amended: the whitespace split of `Lector.leer_archivo` keeps the
empty boundary fields `re.split` produces, so only for contents that are
nonempty and neither start nor end with whitespace is the returned token
list free of empty strings. -/
theorem leer_archivo_no_empty_amended (texto : String)
    (hne : texto.data ≠ [])
    (hhead : esEspacio (texto.data.headD ' ') = false)
    (hlast : esEspacio (texto.data.getLastD ' ') = false) :
    "" ∉ leer_archivo texto := by
  intro hmem
  unfold leer_archivo at hmem
  rw [List.mem_map] at hmem
  obtain ⟨cs, hcs, hmk⟩ := hmem
  have hcsnil : cs = [] := by
    have hdata : (String.mk cs).data = ("" : String).data := by rw [hmk]
    simpa using hdata
  subst hcsnil
  refine splitWsAux_no_nil texto.data [] false (fun h => absurd h hne) ?_ ?_ hcs
  · intro d hd
    have hball : texto.data.getLastD ' ' = d := by
      rw [List.getLastD_eq_getLast?, hd]
      rfl
    rw [← hball]
    exact hlast
  · intro c cs2 hcons hws
    exfalso
    have hhd : texto.data.headD ' ' = c := by rw [hcons]; rfl
    rw [hhd, hws] at hhead
    cases hhead

/-- C3 witness: a file holding the text a b, with no boundary
whitespace, yields no empty token. -/
theorem leer_archivo_no_empty_amended_witness : "" ∉ leer_archivo "a b" :=
  leer_archivo_no_empty_amended "a b" (by decide) (by decide) (by decide)

/-- Reading a set position with the element's own default. -/
theorem getD_set_eq {α : Type} (d : α) :
    ∀ (l : List α) (i : Nat) (x : α), i < l.length → (l.set i x).getD i d = x := by
  intro l
  induction l with
  | nil =>
    intro i x h
    exact absurd h (by simp)
  | cons a as ih =>
    intro i x h
    cases i with
    | zero => rfl
    | succ n =>
      refine ih n x ?_
      simp only [List.length_cons] at h
      omega

/-- Reading any other position of a set list. -/
theorem getD_set_ne {α : Type} (d : α) :
    ∀ (l : List α) (i j : Nat) (x : α), i ≠ j → (l.set i x).getD j d = l.getD j d := by
  intro l
  induction l with
  | nil =>
    intro i j x _
    rfl
  | cons a as ih =>
    intro i j x hne
    cases i with
    | zero =>
      cases j with
      | zero => exact absurd rfl hne
      | succ n => rfl
    | succ n =>
      cases j with
      | zero => rfl
      | succ p => exact ih n p x (fun h => hne (by rw [h]))

/-- Reading past the end of a list gives the default. -/
theorem getD_ge_length {α : Type} (d : α) :
    ∀ (l : List α) (i : Nat), l.length ≤ i → l.getD i d = d := by
  intro l
  induction l with
  | nil => intro i _; rfl
  | cons a as ih =>
    intro i h
    cases i with
    | zero => simp at h
    | succ n =>
      refine ih n ?_
      simp only [List.length_cons] at h
      omega

/-- A bucket list made of one empty bucket per category reads as empty
everywhere. -/
theorem getD_map_const_nil {α : Type} :
    ∀ (l : List α) (i : Nat), (l.map (fun _ => ([] : List String))).getD i [] = [] := by
  intro l
  induction l with
  | nil => intro i; rfl
  | cons a as ih =>
    intro i
    cases i with
    | zero => rfl
    | succ n => exact ih n

/-- `appendAt` does not change the number of buckets. -/
theorem appendAt_length (bs : List (List String)) (i : Nat) (t : String) :
    (appendAt bs i t).length = bs.length := by
  simp [appendAt]

/-- The index of the first matching category is within the category
list. -/
theorem firstMatch_lt_length :
    ∀ (specs : List CategorySpec) (t : String) (i : Nat),
      firstMatch specs t = some i → i < specs.length := by
  intro specs
  induction specs with
  | nil =>
    intro t i h
    simp [firstMatch] at h
  | cons sp rest ih =>
    intro t i h
    simp only [firstMatch] at h
    split at h
    · cases h
      simp
    · cases hm : firstMatch rest t with
      | none => rw [hm] at h; simp at h
      | some j =>
        rw [hm] at h
        simp at h
        have := ih t j hm
        simp only [List.length_cons]
        omega

/-- The classification loop appends, to each starting bucket and to the
starting leftover, exactly the input tokens whose first matching
category is that bucket's — respectively no category at all — in input
order. -/
theorem classifyGo_characterization (specs : List CategorySpec) :
    ∀ (ts : List String) (acc : ClassificationResult),
      acc.buckets.length = specs.length →
      ((classifyGo specs ts acc).leftover =
          acc.leftover ++ ts.filter (fun t => (firstMatch specs t).isNone)) ∧
      (∀ i : Nat, (classifyGo specs ts acc).buckets.getD i [] =
          acc.buckets.getD i [] ++ ts.filter (fun t => firstMatch specs t == some i)) ∧
      (classifyGo specs ts acc).buckets.length = specs.length := by
  intro ts
  induction ts with
  | nil =>
    intro acc hlen
    simp [classifyGo, hlen]
  | cons t ts ih =>
    intro acc hlen
    simp only [classifyGo]
    cases hm : firstMatch specs t with
    | some k =>
      have hk : k < acc.buckets.length := by
        rw [hlen]
        exact firstMatch_lt_length specs t k hm
      have hlen' : (appendAt acc.buckets k t).length = specs.length := by
        rw [appendAt_length]
        exact hlen
      obtain ⟨h1, h2, h3⟩ :=
        ih { buckets := appendAt acc.buckets k t, leftover := acc.leftover } hlen'
      refine ⟨?_, ?_, h3⟩
      · rw [h1]
        simp [List.filter_cons, hm]
      · intro i
        rw [h2 i]
        by_cases hik : i = k
        · subst hik
          have hgd : (appendAt acc.buckets i t).getD i [] = acc.buckets.getD i [] ++ [t] :=
            getD_set_eq [] acc.buckets i _ hk
          rw [hgd]
          simp [List.filter_cons, hm]
        · have hgd : (appendAt acc.buckets k t).getD i [] = acc.buckets.getD i [] :=
            getD_set_ne [] acc.buckets k i _ (fun h => hik h.symm)
          rw [hgd]
          simp [List.filter_cons, hm, Ne.symm hik]
    | none =>
      obtain ⟨h1, h2, h3⟩ :=
        ih { buckets := acc.buckets, leftover := acc.leftover ++ [t] } hlen
      refine ⟨?_, ?_, h3⟩
      · rw [h1]
        simp [List.filter_cons, hm]
      · intro i
        rw [h2 i]
        simp [List.filter_cons, hm]

/-- C1: classification gives each bucket exactly the tokens whose first
fully-matching category, in priority order, is that bucket's category,
and the leftover exactly the tokens matching no category; every input
token therefore lands in exactly one destination, and every bucket and
the leftover preserve the input order. -/
theorem classify_exactly_one (specs : List CategorySpec) (tokens : List String) :
    ((classify specs tokens).leftover =
        tokens.filter (fun t => (firstMatch specs t).isNone)) ∧
    (∀ i : Nat, (classify specs tokens).buckets.getD i [] =
        tokens.filter (fun t => firstMatch specs t == some i)) ∧
    (∀ t, t ∈ tokens →
      (firstMatch specs t = none ∧ t ∈ (classify specs tokens).leftover ∧
          ∀ i : Nat, t ∉ (classify specs tokens).buckets.getD i []) ∨
      (∃ i : Nat, firstMatch specs t = some i ∧
          t ∈ (classify specs tokens).buckets.getD i [] ∧
          t ∉ (classify specs tokens).leftover ∧
          ∀ j : Nat, j ≠ i → t ∉ (classify specs tokens).buckets.getD j [])) ∧
    List.Sublist (classify specs tokens).leftover tokens ∧
    (∀ i : Nat, List.Sublist ((classify specs tokens).buckets.getD i []) tokens) := by
  obtain ⟨h1, h2, _⟩ := classifyGo_characterization specs tokens
    { buckets := specs.map (fun _ => []), leftover := [] } (by simp)
  have hleft : (classify specs tokens).leftover =
      tokens.filter (fun t => (firstMatch specs t).isNone) := by
    rw [classify] at *
    simpa using h1
  have hbuck : ∀ i : Nat, (classify specs tokens).buckets.getD i [] =
      tokens.filter (fun t => firstMatch specs t == some i) := by
    intro i
    rw [classify] at *
    rw [h2 i, getD_map_const_nil]
    simp
  refine ⟨hleft, hbuck, ?_, ?_, ?_⟩
  · intro t ht
    cases hm : firstMatch specs t with
    | none =>
      refine Or.inl ⟨rfl, ?_, ?_⟩
      · rw [hleft]
        exact List.mem_filter.2 ⟨ht, by simp [hm]⟩
      · intro i hmem
        rw [hbuck i] at hmem
        have := (List.mem_filter.1 hmem).2
        simp [hm] at this
    | some k =>
      refine Or.inr ⟨k, rfl, ?_, ?_, ?_⟩
      · rw [hbuck k]
        exact List.mem_filter.2 ⟨ht, by simp [hm]⟩
      · intro hmem
        rw [hleft] at hmem
        have := (List.mem_filter.1 hmem).2
        simp [hm] at this
      · intro j hj hmem
        rw [hbuck j] at hmem
        have := (List.mem_filter.1 hmem).2
        simp [hm] at this
        exact hj this.symm
  · rw [hleft]
    exact List.filter_sublist tokens
  · intro i
    rw [hbuck i]
    exact List.filter_sublist tokens

/-- C1 witness: with the configured categories, the token $x — matching
no category — lands in the leftover list. -/
theorem classify_exactly_one_witness :
    "$x" ∈ (classify definir_exp_reg ["ab", "-3", "#c", "$x"]).leftover := by
  rcases (classify_exactly_one definir_exp_reg ["ab", "-3", "#c", "$x"]).2.2.1 "$x"
      (by decide) with ⟨_, hmem, _⟩ | ⟨i, hi, _⟩
  · exact hmem
  · have hn : firstMatch definir_exp_reg "$x" = none := by decide
    rw [hn] at hi
    cases hi

/-- Inner-loop invariant of the pagination: starting with a buffer of at
least `contador` lines, every emitted popup holds at most the carried
lines plus one full page, and the loop either ends below one page or
emitted nothing at all. -/
theorem emitLoop_bound (titulo : String) (m : Nat) :
    ∀ (es buffer : List String) (contador : Nat),
      contador < m → contador ≤ buffer.length →
      (∀ p ∈ (emitLoop titulo m es buffer contador).1,
          p.lineas.length ≤ buffer.length - contador + m) ∧
      ((emitLoop titulo m es buffer contador).2.length < m ∨
        ((emitLoop titulo m es buffer contador).2 = buffer ++ es ∧
          es.length + contador < m)) := by
  intro es
  induction es with
  | nil =>
    intro buffer contador h1 _
    constructor
    · intro p hp
      simp [emitLoop] at hp
    · right
      refine ⟨by simp [emitLoop], by simpa using h1⟩
  | cons e rest ih =>
    intro buffer contador h1 h2
    simp only [emitLoop]
    by_cases hc : contador + 1 = m
    · simp only [if_pos hc]
      have hm : 0 < m := by omega
      obtain ⟨ha, hb⟩ := ih [] 0 hm (by simp)
      constructor
      · intro p hp
        rcases List.mem_cons.1 hp with hpe | hpr
        · subst hpe
          simp only [List.length_append, List.length_singleton]
          omega
        · have := ha p hpr
          simp only [List.length_nil, Nat.sub_zero, Nat.zero_add] at this
          omega
      · left
        rcases hb with hlt | ⟨heq, hlen⟩
        · exact hlt
        · rw [heq]
          simpa using hlen
    · have hc' : contador + 1 < m := by omega
      obtain ⟨ha, hb⟩ := ih (buffer ++ [e]) (contador + 1)
        hc' (by simp; omega)
      simp only [if_neg hc]
      constructor
      · intro p hp
        have := ha p hp
        simp only [List.length_append, List.length_singleton] at this
        omega
      · rcases hb with hlt | ⟨heq, hlen⟩
        · left
          exact hlt
        · right
          constructor
          · rw [heq]
            simp
          · simp only [List.length_cons]
            omega

/-- Outer-loop invariant of the pagination: while the carried buffer
stays below one page, every popup stays within a page plus the carry,
and the buffer left after each descriptor stays below one page. -/
theorem descLoop_bound (cadena : String) (maxlineas : Nat) (hml : 1 ≤ maxlineas) :
    ∀ (descs : List (String × List String)) (buffer : List String),
      buffer.length < maxlineas →
      (∀ p ∈ (descLoop cadena maxlineas descs buffer).1,
          p.lineas.length ≤ 2 * maxlineas - 1) ∧
      (descLoop cadena maxlineas descs buffer).2.length < maxlineas := by
  intro descs
  induction descs with
  | nil =>
    intro buffer hb
    constructor
    · intro p hp
      simp [descLoop] at hp
    · simpa [descLoop] using hb
  | cons d rest ih =>
    intro buffer hb
    obtain ⟨nombre, estatutos⟩ := d
    simp only [descLoop]
    cases hes : estatutos with
    | nil =>
      simp only [emitLoop]
      obtain ⟨hr1, hr2⟩ := ih buffer hb
      constructor
      · intro p hp
        simp only [List.nil_append] at hp
        exact hr1 p hp
      · exact hr2
    | cons e0 es0 =>
      have hlen1 : 1 ≤ estatutos.length := by rw [hes]; simp
      rw [← hes]
      have hmostrar1 : 1 ≤ (if estatutos.length > maxlineas then maxlineas else estatutos.length) := by
        split
        · exact hml
        · exact hlen1
      have hmostrarle :
          (if estatutos.length > maxlineas then maxlineas else estatutos.length) ≤ maxlineas := by
        split
        · exact Nat.le_refl _
        · omega
      have hmostrarlen :
          (if estatutos.length > maxlineas then maxlineas else estatutos.length) ≤ estatutos.length := by
        split
        · omega
        · exact Nat.le_refl _
      obtain ⟨ha, hbnd⟩ := emitLoop_bound
        ("Analisis de la cadena " ++ cadena ++ " como " ++ nombre ++
          (if estatutos.length > maxlineas then " (Continuación)" else ""))
        (if estatutos.length > maxlineas then maxlineas else estatutos.length)
        estatutos buffer 0 (by omega) (by simp)
      have hsnd :
          (emitLoop
            ("Analisis de la cadena " ++ cadena ++ " como " ++ nombre ++
              (if estatutos.length > maxlineas then " (Continuación)" else ""))
            (if estatutos.length > maxlineas then maxlineas else estatutos.length)
            estatutos buffer 0).2.length < maxlineas := by
        rcases hbnd with hlt | ⟨_, hlen⟩
        · omega
        · omega
      obtain ⟨hr1, hr2⟩ := ih _ hsnd
      constructor
      · intro p hp
        rcases List.mem_append.1 hp with hp1 | hp2
        · have := ha p hp1
          omega
        · exact hr1 p hp2
      · exact hr2

/-- C9, counterexample: with maxlineas 2, a first descriptor narrating 3
sentences leaves one line in the buffer, and the second descriptor's
only popup then shows 3 lines — more than maxlineas. -/
theorem describir_analisis_exceeds_maxlineas :
    ¬(∀ p ∈ (describir_analisis "x" [("d1", ["a", "b", "c"]), ("d2", ["d", "e"])] 2).1,
        p.lineas.length ≤ 2) := by
  decide

/-- C9, amended: every messagebox shown by `describir_analisis` holds at
most 2·maxlineas − 1 lines — up to maxlineas − 1 lines carried over from
earlier descriptors plus at most one full page; the lines still buffered
when the loop ends are never displayed. -/
theorem describir_analisis_popup_bound (cadena : String)
    (descriptores : List (String × List String)) (maxlineas : Nat) (hml : 1 ≤ maxlineas) :
    ∀ p ∈ (describir_analisis cadena descriptores maxlineas).1,
      p.lineas.length ≤ 2 * maxlineas - 1 :=
  (descLoop_bound cadena maxlineas hml descriptores [] (by simpa using hml)).1

/-- C9 witness: in the counterexample run the oversized second popup
still observes the corrected bound of 2·2 − 1 lines. -/
theorem describir_analisis_popup_bound_witness :
    ((describir_analisis "x" [("d1", ["a", "b", "c"]), ("d2", ["d", "e"])] 2).1.getD 1
        { titulo := "", lineas := [] }).lineas.length ≤ 2 * 2 - 1 :=
  describir_analisis_popup_bound "x" [("d1", ["a", "b", "c"]), ("d2", ["d", "e"])] 2
    (by decide) _ (by decide)

/-- The guard written as the digit class matches exactly the digits. -/
theorem ccMatchB_digit (c : Char) : ccMatchB "[0-9]" c = c.isDigit := by
  show (c.isDigit || false) = c.isDigit
  exact Bool.or_false _

/-- The guard written as a bare dot matches exactly the dot character. -/
theorem ccMatchB_dot (c : Char) : ccMatchB "." c = (c == '.') := by
  show ((c == '.') || false) = (c == '.')
  exact Bool.or_false _

/-- The guard written as a bare dash matches exactly the dash. -/
theorem ccMatchB_dash (c : Char) : ccMatchB "-" c = (c == '-') := by
  show ((c == '-') || false) = (c == '-')
  exact Bool.or_false _

/-- The guard written as a double quote matches exactly the quote. -/
theorem ccMatchB_quote (c : Char) : ccMatchB "\"" c = (c == '"') := by
  show ((c == '"') || false) = (c == '"')
  exact Bool.or_false _

/-- The alphanumeric guard matches exactly letters and digits. -/
theorem ccMatchB_alnum (c : Char) :
    ccMatchB "([a-zA-Z]|[0-9])" c = (c.isAlpha || c.isDigit) := by
  show (c.isAlpha || (c.isDigit || false)) = (c.isAlpha || c.isDigit)
  rw [Bool.or_false]

/-- No character is both a dash and a digit. -/
theorem disj_dash_digit (c : Char) :
    ¬(ccMatchB "-" c = true ∧ ccMatchB "[0-9]" c = true) := by
  rintro ⟨h1, h2⟩
  rw [ccMatchB_dash] at h1
  rw [ccMatchB_digit] at h2
  have hc : c = '-' := eq_of_beq h1
  subst hc
  exact absurd h2 (by decide)

/-- No character is both a dash and a quote. -/
theorem disj_dash_quote (c : Char) :
    ¬(ccMatchB "-" c = true ∧ ccMatchB "\"" c = true) := by
  rintro ⟨h1, h2⟩
  rw [ccMatchB_dash] at h1
  rw [ccMatchB_quote] at h2
  have hc : c = '-' := eq_of_beq h1
  subst hc
  exact absurd h2 (by decide)

/-- No character is both a digit and a quote. -/
theorem disj_digit_quote (c : Char) :
    ¬(ccMatchB "[0-9]" c = true ∧ ccMatchB "\"" c = true) := by
  rintro ⟨h1, h2⟩
  rw [ccMatchB_digit] at h1
  rw [ccMatchB_quote] at h2
  have hc : c = '"' := eq_of_beq h2
  subst hc
  exact absurd h1 (by decide)

/-- No character is both a digit and a dot. -/
theorem disj_digit_dot (c : Char) :
    ¬(ccMatchB "[0-9]" c = true ∧ ccMatchB "." c = true) := by
  rintro ⟨h1, h2⟩
  rw [ccMatchB_digit] at h1
  rw [ccMatchB_dot] at h2
  have hc : c = '.' := eq_of_beq h2
  subst hc
  exact absurd h1 (by decide)

/-- No character is both alphanumeric and a quote. -/
theorem disj_alnum_quote (c : Char) :
    ¬(ccMatchB "([a-zA-Z]|[0-9])" c = true ∧ ccMatchB "\"" c = true) := by
  rintro ⟨h1, h2⟩
  rw [ccMatchB_alnum] at h1
  rw [ccMatchB_quote] at h2
  have hc : c = '"' := eq_of_beq h2
  subst hc
  exact absurd h1 (by decide)

/-- No two distinct edges leaving any single state of the model match a
common character. -/
def edgesPairwiseDisjoint (m : AutomatonModel) : Prop :=
  ∀ se ∈ m.transitions, ∀ i j : Nat, i < j → j < se.2.length → ∀ c : Char,
    ¬(ccMatchB (se.2.getD i ("", "")).2 c = true ∧
      ccMatchB (se.2.getD j ("", "")).2 c = true)

/-- C10: in each of the three shipped automatons, the guard patterns of
distinct edges leaving any single state are pairwise disjoint, so
first-match-wins edge selection never breaks a tie. -/
theorem shipped_automata_deterministic :
    edgesPairwiseDisjoint autom_identificadores ∧
    edgesPairwiseDisjoint autom_constantes ∧
    edgesPairwiseDisjoint autom_comentarios := by
  refine ⟨?_, ?_, ?_⟩
  · intro se hse i j hij hj c
    simp [autom_identificadores] at hse
    rcases hse with h | h <;> subst h <;> simp at hj <;> omega
  · intro se hse i j hij hj c
    simp [autom_constantes] at hse
    rcases hse with h | h | h | h | h | h | h
    · subst h
      simp at hj
      interval_cases j
      · omega
      · interval_cases i
        · exact disj_dash_digit c
      · interval_cases i
        · exact disj_dash_quote c
        · exact disj_digit_quote c
    · subst h
      simp at hj
      omega
    · subst h
      simp at hj
      interval_cases j
      · omega
      · interval_cases i
        · exact disj_digit_dot c
    · subst h
      simp at hj
      omega
    · subst h
      simp at hj
      omega
    · subst h
      simp at hj
      interval_cases j
      · omega
      · interval_cases i
        · exact disj_alnum_quote c
    · subst h
      simp at hj
      interval_cases j
      · omega
      · interval_cases i
        · exact disj_alnum_quote c
  · intro se hse i j hij hj c
    simp [autom_comentarios] at hse
    rcases hse with h | h <;> subst h <;> simp at hj <;> omega

/-- C10 witness: applied at state q2 of the constants automaton, its two
edges and the digit 5. -/
theorem shipped_automata_deterministic_witness :
    ¬(ccMatchB "[0-9]" '5' = true ∧ ccMatchB "." '5' = true) :=
  shipped_automata_deterministic.2.1 ("q2", [("q2", "[0-9]"), ("q3", ".")]) (by decide)
    0 1 (by decide) (by decide) '5'

end AutomataFinito

